import Mathlib

/-!
Verification of the memo data-access layer of this repository.

The development is a shallow embedding of the two versions of the memo
server-actions module (`src/app/actions/memos.ts` and the unnamed earlier
copy of the same module) together with the storage semantics fixed by the
migration `supabase/migrations/20251105065016_create_memos_table.sql` and
the row shape of `src/types/database.ts`.

Storage is modelled as the list of rows of the `memos` table plus a flag
saying whether the backend reports an error for the current call; the
queries the module issues (ordered select, `eq` filters, the `or`
ilike-filter, insert/update/delete, `.single()`) are modelled as functions
on that list. SQL `LIKE` patterns are modelled by a character-level
matcher (`likeMatch`), `ILIKE` as LIKE after lower-casing both sides, and
JavaScript `String.prototype.includes` after `toLowerCase()` as substring
containment on lower-cased character lists. Timestamps are modelled as
naturals (only their ordering matters to the code).
-/

namespace MemoStore

/-- Row of the `memos` table as described by `Database` in
`src/types/database.ts`: the `tags` column is nullable (`string[] | null`),
all other columns are non-null. -/
structure MemoRow where
  id : String
  title : String
  content : String
  category : String
  tags : Option (List String)
  created_at : Nat
  updated_at : Nat
deriving Repr, DecidableEq

/-- Application-facing `Memo` shape produced by the field mapping in both
module versions: camel-cased timestamps and a never-null `tags` list. -/
structure Memo where
  id : String
  title : String
  content : String
  category : String
  tags : List String
  createdAt : Nat
  updatedAt : Nat
deriving Repr, DecidableEq

/-- Field mapping applied by every operation to each returned row:
`tags: memo.tags ?? []` (or the equivalent `memo.tags || []` in the other
version) normalises a null `tags` column to the empty list. -/
def rowToMemo (r : MemoRow) : Memo :=
  { id := r.id, title := r.title, content := r.content,
    category := r.category, tags := r.tags.getD [],
    createdAt := r.created_at, updatedAt := r.updated_at }

/-- Characters of a string after lower-casing, as used both by Postgres
`ILIKE` (which compares case-insensitively) and by the JavaScript
`toLowerCase()` calls in the client-side search filter. -/
def lowerStr (s : String) : List Char := s.toList.map Char.toLower

/-- Disjunction of a test over all suffixes of a string (the string itself
included, the empty suffix last). -/
def suffixAny (f : List Char → Bool) : List Char → Bool
  | [] => f []
  | c :: t => f (c :: t) || suffixAny f t

/-- SQL `LIKE` pattern matching over characters: `%` matches any run of
characters (possibly empty) — the rest of the pattern then has to match
some suffix — and `_` matches exactly one character; every other pattern
character matches itself. -/
def likeMatch : List Char → List Char → Bool
  | [], s => s.isEmpty
  | p :: ps, s =>
    if p = '%' then
      suffixAny (likeMatch ps) s
    else
      match s with
      | [] => false
      | c :: t => (p == '_' || p == c) && likeMatch ps t

/-- Substring containment on character lists (`pat` occurs contiguously in
`hay`), the semantics of JavaScript `String.prototype.includes`. -/
def strContains : List Char → List Char → Bool
  | [], pat => pat.isEmpty
  | c :: t, pat => pat.isPrefixOf (c :: t) || strContains t pat

/-- Case-insensitive containment `s.toLowerCase().includes(q.toLowerCase())`
used by the client-side filter of `searchMemos`. -/
def containsCI (s q : String) : Bool := strContains (lowerStr s) (lowerStr q)

/-- Pattern built by `searchMemos`: `const searchPattern = ` followed by
`%${query}%`. -/
def searchPattern (q : String) : String := "%" ++ q ++ "%"

/-- Postgres `ILIKE`: `LIKE` after lower-casing both the pattern and the
candidate string. -/
def ilike (pat s : String) : Bool := likeMatch (lowerStr pat) (lowerStr s)

/-- Descending-`created_at` order used by
`.order('created_at', { ascending: false })`. -/
def createdDesc (a b : MemoRow) : Prop := b.created_at ≤ a.created_at

instance : DecidableRel createdDesc := fun a b => Nat.decLe b.created_at a.created_at

instance : IsTotal MemoRow createdDesc := ⟨fun a b => Nat.le_total b.created_at a.created_at⟩

instance : IsTrans MemoRow createdDesc := ⟨fun _ _ _ h1 h2 => Nat.le_trans h2 h1⟩

/-- Storage-side `ORDER BY created_at DESC` over the selected rows. -/
def orderDesc (rows : List MemoRow) : List MemoRow := List.insertionSort createdDesc rows

/-- One storage call: the current contents of the `memos` table plus
whether the backend reports an error for this call (`error` non-null in
the supabase response, or the awaited call throwing). -/
structure Db where
  rows : List MemoRow
  fail : Bool
deriving Repr, DecidableEq

/-- Modelled from the spec: the `MemoFormData` type imported from
`@/types/memo` is not among the sources; §4.1 of the spec gives the create
input as `{title, content, category?, tags?}` with `category` and `tags`
optional. -/
structure MemoFormData where
  title : String
  content : String
  category : Option String
  tags : Option (List String)
deriving Repr, DecidableEq

/-- Payload the code submits to storage on insert. A `category` field that
is `undefined` is omitted from the serialised payload, so the column
default applies; `tags` is always submitted as an actual array. -/
structure InsertData where
  title : String
  content : String
  category : Option String
  tags : List String
deriving Repr, DecidableEq

/-- The `insertData` object built by `createMemo`:
`tags: formData.tags || []` defaults a missing tags field to the empty
array before submission. -/
def insertDataOf (fd : MemoFormData) : InsertData :=
  { title := fd.title, content := fd.content, category := fd.category,
    tags := fd.tags.getD [] }

/-- Row created by the storage backend for an insert, per the migration:
`id` is a fresh generated key, `category` defaults to `'personal'` when the
payload omits it, and both timestamps are set to now. -/
def insertedRow (d : InsertData) (newId : String) (now : Nat) : MemoRow :=
  { id := newId, title := d.title, content := d.content,
    category := d.category.getD "personal", tags := some d.tags,
    created_at := now, updated_at := now }

/-- Effect of the update payload of `updateMemo` on a matched row: an
`undefined` `category` is omitted from the payload and leaves the column
unchanged, `tags` is always written, and the migration's trigger refreshes
`updated_at` to now. -/
def updatedRow (fd : MemoFormData) (now : Nat) (r : MemoRow) : MemoRow :=
  { r with
    title := fd.title
    content := fd.content
    category := fd.category.getD r.category
    tags := some (fd.tags.getD [])
    updated_at := now }

/-- Semantics of `.single()`: the response carries a row exactly when the
query produced exactly one row, and reports an error otherwise. -/
def single (rows : List MemoRow) : Option MemoRow :=
  match rows with
  | [r] => some r
  | _ => none

/-!
Operations of `src/app/actions/memos.ts`. Each takes the storage state
for the call; mutating operations also take the storage-chosen fresh id or
timestamp and return, next to their result, whether `revalidatePath('/')`
ran and the table contents after the call. On `db.fail` the `catch` block
of each operation converts the failure to the operation's sentinel.
-/
namespace Memos

/-- Embedding of `getMemos`: ordered select of all rows, mapped through the
field mapping; an error is logged, thrown, caught, and turned into `[]`. -/
def getMemos (db : Db) : List Memo :=
  if db.fail then []
  else (orderDesc db.rows).map rowToMemo

/-- Embedding of `getMemoById`: select filtered by `eq('id', id)` with
`.single()`; a storage error (including the zero-row case of `.single()`)
yields `null`. -/
def getMemoById (db : Db) (id : String) : Option Memo :=
  if db.fail then none
  else
    match single (db.rows.filter (fun r => r.id == id)) with
    | none => none
    | some r => some (rowToMemo r)

/-- Embedding of `createMemo`: insert of `insertDataOf fd` returning the
created row via `.select(...).single()`, then `revalidatePath('/')`; on a
storage error the catch block returns `null` without revalidating. -/
def createMemo (db : Db) (fd : MemoFormData) (newId : String) (now : Nat) :
    Option Memo × Bool × List MemoRow :=
  if db.fail then (none, false, db.rows)
  else
    let r := insertedRow (insertDataOf fd) newId now
    (some (rowToMemo r), true, db.rows ++ [r])

/-- Embedding of `updateMemo`: update filtered by `eq('id', id)` returning
the updated row via `.select(...).single()`; the table rows matching the id
are rewritten by the payload either way, while a `.single()` row-count
error (no such id) surfaces as `null` with no revalidation. -/
def updateMemo (db : Db) (id : String) (fd : MemoFormData) (now : Nat) :
    Option Memo × Bool × List MemoRow :=
  if db.fail then (none, false, db.rows)
  else
    let rows' := db.rows.map (fun r => if r.id == id then updatedRow fd now r else r)
    match single ((db.rows.filter (fun r => r.id == id)).map (updatedRow fd now)) with
    | none => (none, false, rows')
    | some r => (some (rowToMemo r), true, rows')

/-- Embedding of `deleteMemo`: delete filtered by `eq('id', id)`; storage
reports no error whether or not any row matched, so the operation
revalidates and returns `true`; a storage failure yields `false`. -/
def deleteMemo (db : Db) (id : String) : Bool × Bool × List MemoRow :=
  if db.fail then (false, false, db.rows)
  else (true, true, db.rows.filter (fun r => !(r.id == id)))

/-- Embedding of `searchMemos`: storage-side ordered select filtered by
`or(title.ilike.%q%,content.ilike.%q%)`, then the client-side filter
re-checking title, content and tags with lower-cased `includes`, then the
field mapping. -/
def searchMemos (db : Db) (q : String) : List Memo :=
  if db.fail then []
  else
    let superset := orderDesc (db.rows.filter (fun r =>
      ilike (searchPattern q) r.title || ilike (searchPattern q) r.content))
    let filtered := superset.filter (fun r =>
      containsCI r.title q || containsCI r.content q ||
        (r.tags.getD []).any (fun t => containsCI t q))
    filtered.map rowToMemo

/-- Embedding of `getMemosByCategory`: ordered select, with an
`eq('category', category)` filter added to the query unless the argument
is `'all'`. -/
def getMemosByCategory (db : Db) (c : String) : List Memo :=
  if db.fail then []
  else
    let base := if c = "all" then db.rows else db.rows.filter (fun r => r.category == c)
    (orderDesc base).map rowToMemo

end Memos

/-!
Operations of the unnamed earlier copy of the module. The differences
from `Memos` are only in dead or equivalent code: `select('*')` instead of
an explicit column list (same row shape), `(data || [])` instead of a
separate `if (!data)` guard (the response carries a list exactly when there
is no error), `tags || []` instead of `tags ?? []` (arrays are truthy, so
both only replace null/undefined), and `getMemosByCategory` mutating the
query builder in place through `query.eq(...)` instead of reassigning it —
the builder method appends the filter to the same query either way.
-/
namespace PartZero

/-- Embedding of `getMemos` of the earlier copy. -/
def getMemos (db : Db) : List Memo :=
  if db.fail then []
  else (orderDesc db.rows).map rowToMemo

/-- Embedding of `getMemoById` of the earlier copy. -/
def getMemoById (db : Db) (id : String) : Option Memo :=
  if db.fail then none
  else
    match single (db.rows.filter (fun r => r.id == id)) with
    | none => none
    | some r => some (rowToMemo r)

/-- Embedding of `createMemo` of the earlier copy (no `if (!data)` guard:
a non-error `.single()` response always carries the created row). -/
def createMemo (db : Db) (fd : MemoFormData) (newId : String) (now : Nat) :
    Option Memo × Bool × List MemoRow :=
  if db.fail then (none, false, db.rows)
  else
    let r := insertedRow (insertDataOf fd) newId now
    (some (rowToMemo r), true, db.rows ++ [r])

/-- Embedding of `updateMemo` of the earlier copy. -/
def updateMemo (db : Db) (id : String) (fd : MemoFormData) (now : Nat) :
    Option Memo × Bool × List MemoRow :=
  if db.fail then (none, false, db.rows)
  else
    let rows' := db.rows.map (fun r => if r.id == id then updatedRow fd now r else r)
    match single ((db.rows.filter (fun r => r.id == id)).map (updatedRow fd now)) with
    | none => (none, false, rows')
    | some r => (some (rowToMemo r), true, rows')

/-- Embedding of `deleteMemo` of the earlier copy. -/
def deleteMemo (db : Db) (id : String) : Bool × Bool × List MemoRow :=
  if db.fail then (false, false, db.rows)
  else (true, true, db.rows.filter (fun r => !(r.id == id)))

/-- Embedding of `searchMemos` of the earlier copy. -/
def searchMemos (db : Db) (q : String) : List Memo :=
  if db.fail then []
  else
    let superset := orderDesc (db.rows.filter (fun r =>
      ilike (searchPattern q) r.title || ilike (searchPattern q) r.content))
    let filtered := superset.filter (fun r =>
      containsCI r.title q || containsCI r.content q ||
        (r.tags.getD []).any (fun t => containsCI t q))
    filtered.map rowToMemo

/-- Embedding of `getMemosByCategory` of the earlier copy: the in-place
`query.eq('category', category)` adds the same filter the reassigning
version adds. -/
def getMemosByCategory (db : Db) (c : String) : List Memo :=
  if db.fail then []
  else
    let base := if c = "all" then db.rows else db.rows.filter (fun r => r.category == c)
    (orderDesc base).map rowToMemo

end PartZero

/-- Queries free of LIKE wildcard metacharacters: after the lower-casing
that ILIKE applies to the pattern, the query contributes no `%` and no `_`
to it. Ordinary search terms satisfy this; for such terms the pattern
`%q%` denotes plain case-insensitive containment. -/
def noWildcards (q : String) : Prop := ∀ c ∈ lowerStr q, c ≠ '%' ∧ c ≠ '_'

instance : DecidablePred noWildcards := fun q =>
  List.decidableBAll (fun c => c ≠ '%' ∧ c ≠ '_') (lowerStr q)

/-- Predicate written from the spec's sentence for `search`: title or
content contains the query case-insensitively, or some tag does. Used to
compare the specified semantics with what `searchMemos` returns. -/
def specSearchMatch (q : String) (r : MemoRow) : Bool :=
  containsCI r.title q || containsCI r.content q ||
    (r.tags.getD []).any fun t => containsCI t q

/-- Row of the spec's known-gap example: the only match for the query
`"urgent"` is in `tags`. -/
def tagOnlyRow : MemoRow :=
  { id := "m1", title := "x", content := "y", category := "personal",
    tags := some ["urgent"], created_at := 1, updated_at := 1 }

/-- Row of the spec's positive search example:
`{title:"Buy milk", content:"at the store", category:"todo", tags:[]}`. -/
def milkRow : MemoRow :=
  { id := "m2", title := "Buy milk", content := "at the store",
    category := "todo", tags := some [], created_at := 2, updated_at := 2 }

/-- Row refuting the universal form of the tag-exclusion claim: for the
query `"%"` the storage pattern `%%%` puts every row in the superset, and
the client-side tag check then accepts this row through its tag
`"100%"` even though neither title nor content contains the query. -/
def pctTagRow : MemoRow :=
  { id := "m3", title := "x", content := "y", category := "personal",
    tags := some ["100%"], created_at := 4, updated_at := 4 }

/-- Row whose stored `tags` column is null, for the normalisation claim. -/
def nullTagsRow : MemoRow :=
  { id := "n", title := "t", content := "c", category := "personal",
    tags := none, created_at := 3, updated_at := 3 }

/-!
Bridge between the storage-side ILIKE pattern `%q%` and case-insensitive
substring containment, for queries without LIKE wildcard metacharacters.
-/

/-- A pattern consisting of a single `%` matches every string. -/
theorem likeMatch_pct (s : List Char) : likeMatch ['%'] s = true := by
  induction s with
  | nil => rfl
  | cons c t ih => simpa [likeMatch, suffixAny] using ih

/-- A wildcard-free pattern followed by `%` matches exactly the strings it
is a prefix of. -/
theorem likeMatch_append_pct (p : List Char) (hp : ∀ c ∈ p, c ≠ '%' ∧ c ≠ '_') :
    ∀ s, likeMatch (p ++ ['%']) s = p.isPrefixOf s := by
  induction p with
  | nil =>
    intro s
    simpa [List.isPrefixOf] using likeMatch_pct s
  | cons a p ih =>
    intro s
    obtain ⟨ha1, ha2⟩ := hp a (List.mem_cons_self a p)
    have ih' := ih fun c hc => hp c (List.mem_cons_of_mem a hc)
    cases s with
    | nil => simp [likeMatch, List.isPrefixOf, ha1]
    | cons c t =>
      simp [likeMatch, List.isPrefixOf, ha1, beq_eq_false_iff_ne.mpr ha2, ih' t]

/-- The empty pattern occurs in every string. -/
theorem strContains_nil (hay : List Char) : strContains hay [] = true := by
  cases hay <;> simp [strContains, List.isPrefixOf]

/-- Restatement of the `%` clause for a wildcard-free core pattern: some
suffix is matched iff the core occurs as a substring. -/
theorem suffixAny_append_pct (p : List Char) (hp : ∀ c ∈ p, c ≠ '%' ∧ c ≠ '_') :
    ∀ s, suffixAny (likeMatch (p ++ ['%'])) s = strContains s p := by
  intro s
  induction s with
  | nil =>
    cases p with
    | nil => rfl
    | cons a q =>
      simp only [suffixAny, strContains]
      exact (likeMatch_append_pct (a :: q) hp []).trans rfl
  | cons c t ih =>
    simp [suffixAny, strContains, likeMatch_append_pct _ hp, ih]

/-- A wildcard-free pattern wrapped in `%...%` matches exactly the strings
containing it. -/
theorem likeMatch_pct_wrap (p : List Char) (hp : ∀ c ∈ p, c ≠ '%' ∧ c ≠ '_') :
    ∀ s, likeMatch ('%' :: (p ++ ['%'])) s = strContains s p := by
  intro s
  simpa [likeMatch] using suffixAny_append_pct p hp s

/-- Lower-casing the pattern `%q%` yields `%` around the lower-cased query. -/
theorem lowerStr_searchPattern (q : String) :
    lowerStr (searchPattern q) = '%' :: (lowerStr q ++ ['%']) := by
  have h1 : ("%" : String).toList = ['%'] := rfl
  have h2 : Char.toLower '%' = '%' := rfl
  simp [lowerStr, searchPattern, String.toList, String.data_append, h2]

/-- For a query without LIKE wildcards, the storage-side ILIKE filter with
pattern `%q%` coincides with the client-side lower-cased containment test. -/
theorem ilike_searchPattern (q : String) (hq : noWildcards q) (s : String) :
    ilike (searchPattern q) s = containsCI s q := by
  unfold ilike containsCI
  rw [lowerStr_searchPattern]
  exact likeMatch_pct_wrap (lowerStr q) hq (lowerStr s)

/-- A row delivered by `.single()` comes from the queried list. -/
theorem single_mem {l : List MemoRow} {r : MemoRow} (h : single l = some r) : r ∈ l := by
  match l with
  | [] => simp [single] at h
  | [x] =>
    simp [single] at h
    simp [h]
  | x :: y :: t => simp [single] at h

/-- Storage-side ordering is a permutation of the selected rows. -/
theorem orderDesc_perm (l : List MemoRow) : (orderDesc l).Perm l :=
  List.perm_insertionSort createdDesc l

/-- Storage-side ordering sorts by `created_at` descending (non-strict). -/
theorem orderDesc_sorted (l : List MemoRow) : List.Sorted createdDesc (orderDesc l) :=
  List.sorted_insertionSort createdDesc l

/-- With pairwise-distinct `created_at` values the storage-side ordering is
strictly descending. -/
theorem orderDesc_strict (l : List MemoRow)
    (hd : l.Pairwise fun a b => a.created_at ≠ b.created_at) :
    (orderDesc l).Pairwise fun a b => b.created_at < a.created_at := by
  have hs : (orderDesc l).Pairwise createdDesc := orderDesc_sorted l
  have hne : (orderDesc l).Pairwise (fun a b => a.created_at ≠ b.created_at) :=
    ((orderDesc_perm l).pairwise_iff fun h => Ne.symm h).mpr hd
  exact (hs.and hne).imp fun h => lt_of_le_of_ne h.1 (Ne.symm h.2)

/-- Membership characterisation of `searchMemos` for queries without LIKE
wildcards: exactly the rows whose title or content contains the query
case-insensitively survive both filters — inside the storage superset the
tag disjunct of the client-side filter is redundant. -/
theorem searchMemos_mem (rows : List MemoRow) (q : String) (hq : noWildcards q) (m : Memo) :
    m ∈ Memos.searchMemos ⟨rows, false⟩ q ↔
      ∃ r ∈ rows, (containsCI r.title q || containsCI r.content q) = true ∧ m = rowToMemo r := by
  have hpat : ∀ s, ilike (searchPattern q) s = containsCI s q := ilike_searchPattern q hq
  simp [Memos.searchMemos, orderDesc, List.mem_filter, hpat]
  constructor
  · rintro ⟨r, ⟨⟨hr, h1⟩, _⟩, hm⟩
    exact ⟨r, hr, h1, hm.symm⟩
  · rintro ⟨r, hr, h1, hm⟩
    exact ⟨r, ⟨⟨hr, h1⟩, Or.inl h1⟩, hm.symm⟩

/-- Membership characterisation of `getMemosByCategory` for a category
other than `'all'`: the `eq` filter keeps exactly the rows of that
category. -/
theorem byCategory_mem (rows : List MemoRow) (c : String) (hc : c ≠ "all") (m : Memo) :
    m ∈ Memos.getMemosByCategory ⟨rows, false⟩ c ↔
      ∃ r ∈ rows, r.category = c ∧ m = rowToMemo r := by
  simp [Memos.getMemosByCategory, orderDesc, hc, List.mem_filter]
  constructor
  · rintro ⟨r, ⟨hr, h1⟩, hm⟩
    exact ⟨r, hr, h1, hm.symm⟩
  · rintro ⟨r, hr, h1, hm⟩
    exact ⟨r, ⟨hr, h1⟩, hm.symm⟩

/-- C1 (counterexample): the claim as stated fails on the code. The row
`tagOnlyRow` satisfies the spec's search predicate for the query
`"urgent"` — the match is in its tags — yet `searchMemos` returns the
empty list, because the storage-level superset query selects on title and
content only. -/
theorem searchMemos_spec_counterexample :
    specSearchMatch "urgent" tagOnlyRow = true ∧
      Memos.searchMemos { rows := [tagOnlyRow], fail := false } "urgent" = [] := by
  decide

/-- C1 (amended): for every query free of LIKE wildcard metacharacters,
`searchMemos` returns exactly the memos whose title or content contains
the query case-insensitively — memos matching only in their tags are
excluded. -/
theorem searchMemos_title_content_exact (rows : List MemoRow) (q : String)
    (hq : noWildcards q) (m : Memo) :
    m ∈ Memos.searchMemos ⟨rows, false⟩ q ↔
      ∃ r ∈ rows, (containsCI r.title q || containsCI r.content q) = true ∧ m = rowToMemo r :=
  searchMemos_mem rows q hq m

/-- C1 (witness): the amended theorem applied to the spec's example — the
memo `{title:"Buy milk", content:"at the store"}` and the query
`"MILK"`. -/
theorem searchMemos_title_content_exact_witness :
    noWildcards "MILK" ∧
      (rowToMemo milkRow ∈ Memos.searchMemos { rows := [milkRow], fail := false } "MILK" ↔
        ∃ r ∈ [milkRow],
          (containsCI r.title "MILK" || containsCI r.content "MILK") = true ∧
            rowToMemo milkRow = rowToMemo r) :=
  ⟨by decide, searchMemos_title_content_exact [milkRow] "MILK" (by decide) (rowToMemo milkRow)⟩

/-- C2 (counterexample): the claim as stated — quantified over every
query string — fails on the code. For the query `"%"` the storage pattern
`%%%` matches every row, so `pctTagRow`, whose only case-insensitive
match with the query is in its tags, is in the superset and is returned
through the client-side tag check. -/
theorem search_pct_tag_only_returned :
    containsCI pctTagRow.title "%" = false ∧
      containsCI pctTagRow.content "%" = false ∧
      ((pctTagRow.tags.getD []).any fun t => containsCI t "%") = true ∧
      rowToMemo pctTagRow ∈ Memos.searchMemos { rows := [pctTagRow], fail := false } "%" := by
  decide

/-- C2 (amended): for every query free of LIKE wildcard metacharacters, a
memo whose title and content do not contain the query case-insensitively
is never returned by `searchMemos`, whatever its tags are: the
storage-level superset query selects on title/content only and the
client-side tag filter is applied only to that superset. -/
theorem search_tag_only_excluded (rows : List MemoRow) (q : String) (hq : noWildcards q)
    (m : Memo) (ht : containsCI m.title q = false) (hc : containsCI m.content q = false) :
    m ∉ Memos.searchMemos ⟨rows, false⟩ q := by
  intro hm
  rcases (searchMemos_mem rows q hq m).mp hm with ⟨r, _, hor, hmr⟩
  have et : m.title = r.title := by rw [hmr]; rfl
  have ec : m.content = r.content := by rw [hmr]; rfl
  rw [et] at ht
  rw [ec] at hc
  rw [ht, hc] at hor
  simp at hor

/-- C2 (witness): the spec's known-gap example — `tags:["urgent"]`,
`title:"x"`, `content:"y"` is not returned by `search("urgent")`. -/
theorem search_tag_only_excluded_witness :
    noWildcards "urgent" ∧ containsCI (rowToMemo tagOnlyRow).title "urgent" = false ∧
      containsCI (rowToMemo tagOnlyRow).content "urgent" = false ∧
      rowToMemo tagOnlyRow ∉
        Memos.searchMemos { rows := [tagOnlyRow], fail := false } "urgent" :=
  ⟨by decide, by decide, by decide,
    search_tag_only_excluded [tagOnlyRow] "urgent" (by decide) (rowToMemo tagOnlyRow)
      (by decide) (by decide)⟩

/-- C3: when the storage backend reports a failure, every one of the seven
operations returns its empty sentinel — the empty list for the
list-returning operations, `none` for the memo-returning ones, `false` for
delete — and no exception escapes (the embedding of each `catch` block is
total). -/
theorem storage_failure_sentinels (rows : List MemoRow) (id c q newId : String)
    (fd : MemoFormData) (now : Nat) :
    Memos.getMemos ⟨rows, true⟩ = [] ∧
    Memos.getMemoById ⟨rows, true⟩ id = none ∧
    (Memos.createMemo ⟨rows, true⟩ fd newId now).1 = none ∧
    (Memos.updateMemo ⟨rows, true⟩ id fd now).1 = none ∧
    (Memos.deleteMemo ⟨rows, true⟩ id).1 = false ∧
    Memos.searchMemos ⟨rows, true⟩ q = [] ∧
    Memos.getMemosByCategory ⟨rows, true⟩ c = [] ∧
    PartZero.getMemos ⟨rows, true⟩ = [] ∧
    PartZero.getMemoById ⟨rows, true⟩ id = none ∧
    (PartZero.createMemo ⟨rows, true⟩ fd newId now).1 = none ∧
    (PartZero.updateMemo ⟨rows, true⟩ id fd now).1 = none ∧
    (PartZero.deleteMemo ⟨rows, true⟩ id).1 = false ∧
    PartZero.searchMemos ⟨rows, true⟩ q = [] ∧
    PartZero.getMemosByCategory ⟨rows, true⟩ c = [] :=
  ⟨rfl, rfl, rfl, rfl, rfl, rfl, rfl, rfl, rfl, rfl, rfl, rfl, rfl, rfl⟩

/-- C5: `getMemosByCategory("all")` applies no category filter and returns
exactly the `getMemos()` result, while for any other category it returns
exactly the memos of that category. -/
theorem byCategory_all_and_eq_filter (rows : List MemoRow) (c : String) (hc : c ≠ "all") :
    Memos.getMemosByCategory ⟨rows, false⟩ "all" = Memos.getMemos ⟨rows, false⟩ ∧
      ∀ m, m ∈ Memos.getMemosByCategory ⟨rows, false⟩ c ↔
        ∃ r ∈ rows, r.category = c ∧ m = rowToMemo r :=
  ⟨rfl, byCategory_mem rows c hc⟩

/-- C5 (witness): the theorem applied to a two-row store and the category
`"todo"`. -/
theorem byCategory_all_and_eq_filter_witness :
    ("todo" ≠ "all") ∧
      (Memos.getMemosByCategory { rows := [tagOnlyRow, milkRow], fail := false } "all" =
          Memos.getMemos { rows := [tagOnlyRow, milkRow], fail := false } ∧
        ∀ m, m ∈ Memos.getMemosByCategory { rows := [tagOnlyRow, milkRow], fail := false } "todo" ↔
          ∃ r ∈ [tagOnlyRow, milkRow], r.category = "todo" ∧ m = rowToMemo r) :=
  ⟨by decide, byCategory_all_and_eq_filter [tagOnlyRow, milkRow] "todo" (by decide)⟩

/-- C7: with the storage backend reporting no error, `deleteMemo` returns
`true` for every id; in particular deleting an id that matches no row
still reports `true` (and leaves the table unchanged), indistinguishable
from a successful delete. -/
theorem delete_true_even_if_absent (rows : List MemoRow) (id : String) :
    (Memos.deleteMemo ⟨rows, false⟩ id).1 = true ∧
      (id ∉ rows.map MemoRow.id → Memos.deleteMemo ⟨rows, false⟩ id = (true, true, rows)) := by
  refine ⟨rfl, fun hid => ?_⟩
  show (true, true, rows.filter fun r => !(r.id == id)) = (true, true, rows)
  rw [List.filter_eq_self.mpr]
  intro r hr
  simp only [Bool.not_eq_eq_eq_not, Bool.not_true, beq_eq_false_iff_ne]
  intro he
  exact hid (he ▸ List.mem_map_of_mem MemoRow.id hr)

/-- C7 (witness): deleting the id `"nope"`, present in no row, returns
`true` and the unchanged table. -/
theorem delete_true_even_if_absent_witness :
    Memos.deleteMemo { rows := [tagOnlyRow], fail := false } "nope" =
      (true, true, [tagOnlyRow]) :=
  (delete_true_even_if_absent [tagOnlyRow] "nope").2 (by decide)

/-- C9: the two versions of the module are behaviourally equivalent: on
equal storage states every operation returns an equal result, performs the
same revalidation, and leaves the table in the same state. -/
theorem versions_equivalent (db : Db) (id c q newId : String)
    (fd : MemoFormData) (now : Nat) :
    PartZero.getMemos db = Memos.getMemos db ∧
    PartZero.getMemoById db id = Memos.getMemoById db id ∧
    PartZero.createMemo db fd newId now = Memos.createMemo db fd newId now ∧
    PartZero.updateMemo db id fd now = Memos.updateMemo db id fd now ∧
    PartZero.deleteMemo db id = Memos.deleteMemo db id ∧
    PartZero.searchMemos db q = Memos.searchMemos db q ∧
    PartZero.getMemosByCategory db c = Memos.getMemosByCategory db c :=
  ⟨rfl, rfl, rfl, rfl, rfl, rfl, rfl⟩

/-- C4: every memo an operation returns is the boundary image `rowToMemo`
of some row — of the table for the read paths, of the submitted payload
for the write paths — and that image always carries an actual tag list:
`tags` of a created or updated memo is the defaulted form list, and a row
whose stored `tags` is null is normalised to the empty list. -/
theorem tags_normalized (rows : List MemoRow) (id c q newId : String)
    (fd : MemoFormData) (now : Nat) :
    (∀ m ∈ Memos.getMemos ⟨rows, false⟩, ∃ r ∈ rows, m = rowToMemo r) ∧
    (∀ m, Memos.getMemoById ⟨rows, false⟩ id = some m → ∃ r ∈ rows, m = rowToMemo r) ∧
    (∀ m ∈ Memos.searchMemos ⟨rows, false⟩ q, ∃ r ∈ rows, m = rowToMemo r) ∧
    (∀ m ∈ Memos.getMemosByCategory ⟨rows, false⟩ c, ∃ r ∈ rows, m = rowToMemo r) ∧
    (∀ m, (Memos.createMemo ⟨rows, false⟩ fd newId now).1 = some m →
      m.tags = fd.tags.getD []) ∧
    (∀ m, (Memos.updateMemo ⟨rows, false⟩ id fd now).1 = some m →
      m.tags = fd.tags.getD []) ∧
    (∀ r : MemoRow, r.tags = none → (rowToMemo r).tags = []) := by
  refine ⟨?_, ?_, ?_, ?_, ?_, ?_, ?_⟩
  · intro m hm
    simp only [Memos.getMemos, orderDesc, if_neg (by simp : ¬(false = true)),
      List.mem_map, List.mem_insertionSort] at hm
    obtain ⟨r, hr, he⟩ := hm
    exact ⟨r, hr, he.symm⟩
  · intro m hm
    cases h : single (rows.filter fun r => r.id == id) with
    | none => simp [Memos.getMemoById, h] at hm
    | some r =>
      simp only [Memos.getMemoById, if_neg (by simp : ¬(false = true)), h,
        Option.some.injEq] at hm
      exact ⟨r, (List.mem_filter.mp (single_mem h)).1, hm.symm⟩
  · intro m hm
    simp only [Memos.searchMemos, orderDesc, if_neg (by simp : ¬(false = true)),
      List.mem_map, List.mem_filter, List.mem_insertionSort] at hm
    obtain ⟨⟨⟨hr, _⟩, _⟩, he⟩ := hm.choose_spec
    exact ⟨hm.choose, hr, he.symm⟩
  · intro m hm
    by_cases hc : c = "all"
    · subst hc
      simp only [Memos.getMemosByCategory, orderDesc, if_neg (by simp : ¬(false = true)),
        if_pos rfl, List.mem_map, List.mem_insertionSort] at hm
      obtain ⟨r, hr, he⟩ := hm
      exact ⟨r, hr, he.symm⟩
    · obtain ⟨r, hr, _, he⟩ := (byCategory_mem rows c hc m).mp hm
      exact ⟨r, hr, he⟩
  · intro m hm
    simp only [Memos.createMemo, if_neg (by simp : ¬(false = true)),
      Option.some.injEq] at hm
    rw [← hm]
    rfl
  · intro m hm
    cases h : single ((rows.filter fun r => r.id == id).map (updatedRow fd now)) with
    | none => simp [Memos.updateMemo, h] at hm
    | some r =>
      simp only [Memos.updateMemo, if_neg (by simp : ¬(false = true)), h,
        Option.some.injEq] at hm
      obtain ⟨r0, _, he⟩ := List.mem_map.mp (single_mem h)
      rw [← hm, ← he]
      rfl
  · intro r h
    simp [rowToMemo, h]

/-- C4 (witness): the theorem applied to a one-row store whose stored
`tags` is null — the boundary image carries the empty list. -/
theorem tags_normalized_witness :
    nullTagsRow.tags = none ∧ (rowToMemo nullTagsRow).tags = [] :=
  ⟨rfl, (tags_normalized [] "n" "all" "" "n2" ⟨"t", "c", none, none⟩ 0).2.2.2.2.2.2
    nullTagsRow rfl⟩

/-- C6: when all rows carry pairwise-distinct `created_at` timestamps, the
lists returned by `getMemos`, `searchMemos` and `getMemosByCategory` are
sorted by `createdAt` in strictly descending order. -/
theorem results_sorted_desc (rows : List MemoRow) (q c : String)
    (hd : rows.Pairwise fun a b => a.created_at ≠ b.created_at) :
    List.Sorted (fun a b : Memo => b.createdAt < a.createdAt)
        (Memos.getMemos ⟨rows, false⟩) ∧
      List.Sorted (fun a b : Memo => b.createdAt < a.createdAt)
        (Memos.searchMemos ⟨rows, false⟩ q) ∧
      List.Sorted (fun a b : Memo => b.createdAt < a.createdAt)
        (Memos.getMemosByCategory ⟨rows, false⟩ c) := by
  refine ⟨?_, ?_, ?_⟩
  · show List.Pairwise _ ((orderDesc rows).map rowToMemo)
    exact (orderDesc_strict rows hd).map rowToMemo fun a b h => h
  · show List.Pairwise _
      (((orderDesc (rows.filter _)).filter _).map rowToMemo)
    refine (List.Pairwise.filter _ ?_).map rowToMemo fun a b h => h
    exact orderDesc_strict _ (hd.sublist (List.filter_sublist rows))
  · show List.Pairwise _ ((orderDesc (if c = "all" then rows else rows.filter _)).map rowToMemo)
    refine (orderDesc_strict _ ?_).map rowToMemo fun a b h => h
    by_cases hc : c = "all"
    · simpa [hc] using hd
    · simpa [hc] using hd.sublist (List.filter_sublist rows)

/-- C6 (witness): the theorem applied to a two-row store with distinct
timestamps. -/
theorem results_sorted_desc_witness :
    ([tagOnlyRow, milkRow].Pairwise fun a b => a.created_at ≠ b.created_at) ∧
      (List.Sorted (fun a b : Memo => b.createdAt < a.createdAt)
          (Memos.getMemos { rows := [tagOnlyRow, milkRow], fail := false }) ∧
        List.Sorted (fun a b : Memo => b.createdAt < a.createdAt)
          (Memos.searchMemos { rows := [tagOnlyRow, milkRow], fail := false } "x") ∧
        List.Sorted (fun a b : Memo => b.createdAt < a.createdAt)
          (Memos.getMemosByCategory { rows := [tagOnlyRow, milkRow], fail := false } "todo")) :=
  ⟨by decide, results_sorted_desc [tagOnlyRow, milkRow] "x" "todo" (by decide)⟩

/-- C8: when the form omits `tags`, `createMemo` submits the empty list to
storage, the returned memo carries `tags = []`, and reading the new id
back through `getMemoById` yields the created memo, again with
`tags = []`. -/
theorem create_omitted_tags_empty (rows : List MemoRow) (fd : MemoFormData)
    (newId : String) (now : Nat) (hft : fd.tags = none)
    (hfresh : newId ∉ rows.map MemoRow.id) :
    (insertDataOf fd).tags = [] ∧
      (Memos.createMemo ⟨rows, false⟩ fd newId now).1 =
        some (rowToMemo (insertedRow (insertDataOf fd) newId now)) ∧
      (rowToMemo (insertedRow (insertDataOf fd) newId now)).tags = [] ∧
      Memos.getMemoById ⟨(Memos.createMemo ⟨rows, false⟩ fd newId now).2.2, false⟩ newId =
        some (rowToMemo (insertedRow (insertDataOf fd) newId now)) := by
  refine ⟨by simp [insertDataOf, hft], rfl, by simp [rowToMemo, insertedRow, insertDataOf, hft], ?_⟩
  have h1 : rows.filter (fun r => r.id == newId) = [] := by
    rw [List.filter_eq_nil_iff]
    intro r hr
    simp only [beq_eq_false_iff_ne, ne_eq, Bool.not_eq_true]
    intro he
    exact hfresh (he ▸ List.mem_map_of_mem MemoRow.id hr)
  have h2 : (rows ++ [insertedRow (insertDataOf fd) newId now]).filter
      (fun r => r.id == newId) = [insertedRow (insertDataOf fd) newId now] := by
    rw [List.filter_append, h1]
    simp [insertedRow]
  simp [Memos.getMemoById, Memos.createMemo, h2, single]

/-- C8 (witness): the theorem applied to the empty store and a form with
`tags` omitted. -/
theorem create_omitted_tags_empty_witness :
    (⟨"t", "c", none, none⟩ : MemoFormData).tags = none ∧
      ("a" ∉ ([] : List MemoRow).map MemoRow.id) ∧
      ((insertDataOf ⟨"t", "c", none, none⟩).tags = [] ∧
        (Memos.createMemo ⟨[], false⟩ ⟨"t", "c", none, none⟩ "a" 0).1 =
          some (rowToMemo (insertedRow (insertDataOf ⟨"t", "c", none, none⟩) "a" 0)) ∧
        (rowToMemo (insertedRow (insertDataOf ⟨"t", "c", none, none⟩) "a" 0)).tags = [] ∧
        Memos.getMemoById
            ⟨(Memos.createMemo ⟨[], false⟩ ⟨"t", "c", none, none⟩ "a" 0).2.2, false⟩ "a" =
          some (rowToMemo (insertedRow (insertDataOf ⟨"t", "c", none, none⟩) "a" 0))) :=
  ⟨rfl, by simp, create_omitted_tags_empty [] ⟨"t", "c", none, none⟩ "a" 0 rfl (by simp)⟩

/-- C10: searching with the empty query returns every memo in the store —
the pattern `%%` matches every row and every string contains the empty
string — as the same createdAt-descending list `getMemos` returns. -/
theorem search_empty_query_all (rows : List MemoRow) :
    Memos.searchMemos ⟨rows, false⟩ "" = Memos.getMemos ⟨rows, false⟩ ∧
      (Memos.searchMemos ⟨rows, false⟩ "").Perm (rows.map rowToMemo) ∧
      List.Sorted (fun a b : Memo => b.createdAt ≤ a.createdAt)
        (Memos.searchMemos ⟨rows, false⟩ "") := by
  have hq : noWildcards "" := by decide
  have hilike : ∀ s, ilike (searchPattern "") s = true := fun s => by
    rw [ilike_searchPattern "" hq s]
    exact strContains_nil (lowerStr s)
  have hcont : ∀ s, containsCI s "" = true := fun s => strContains_nil (lowerStr s)
  have hfil1 : (rows.filter fun r =>
      ilike (searchPattern "") r.title || ilike (searchPattern "") r.content) = rows :=
    List.filter_eq_self.mpr fun r _ => by simp [hilike]
  have hfil2 : ((orderDesc rows).filter fun r =>
      containsCI r.title "" || containsCI r.content "" ||
        (r.tags.getD []).any fun t => containsCI t "") = orderDesc rows :=
    List.filter_eq_self.mpr fun r _ => by simp [hcont]
  have heq : Memos.searchMemos ⟨rows, false⟩ "" = (orderDesc rows).map rowToMemo := by
    show ((orderDesc (rows.filter _)).filter _).map rowToMemo = _
    rw [hfil1, hfil2]
  refine ⟨heq, ?_, ?_⟩
  · rw [heq]
    exact (orderDesc_perm rows).map rowToMemo
  · rw [heq]
    exact (orderDesc_sorted rows).map rowToMemo fun a b h => h

end MemoStore
